import Mathlib

/-!
Verification of the pharmacy-based validator rule set.

The rules live in the repository's validator store (`src/unnamed/part_001`),
registered into a `pharmacy.Store`. JavaScript runtime values are embedded as
the inductive `JSValue`; JS numbers are modelled as rationals (the rules under
study only compare and clamp numbers). Each rule of the Domain Rule Set that
the claims mention is translated here, keeping the source's names and control
flow. The `pharmacy` engine itself (Field/Report plumbing) is an external
dependency not under `src/`; the few engine facts needed (what a Report is,
how a boolean rule outcome turns into issues) are modelled from the spec and
marked as such in their doc comments.
-/

/-- Shallow embedding of JavaScript runtime values as seen by the validator.
Objects are ordered association lists (JS object keys are unique and ordered);
`dateObj` stands for a `Date` instance (only its runtime kind matters to the
rules studied here). -/
inductive JSValue where
  | undefined
  | null
  | bool (b : Bool)
  | num (q : ℚ)
  | str (s : String)
  | arr (elems : List JSValue)
  | obj (fields : List (String × JSValue))
  | dateObj
deriving Repr

namespace JSValue

/-- JS `typeof` as a string. `typeof null === 'object'`, arrays and dates are
`'object'` too. -/
def typeofStr : JSValue → String
  | .undefined => "undefined"
  | .null => "object"
  | .bool _ => "boolean"
  | .num _ => "number"
  | .str _ => "string"
  | .arr _ => "object"
  | .obj _ => "object"
  | .dateObj => "object"

/-- Field capability `isString`: `typeof this.value === 'string'`. -/
def isString : JSValue → Bool
  | .str _ => true
  | _ => false

/-- Field capability `isBool`: `typeof this.value === 'boolean'`. -/
def isBool : JSValue → Bool
  | .bool _ => true
  | _ => false

/-- Field capability `isNumber`: `typeof this.value === 'number'`. -/
def isNumber : JSValue → Bool
  | .num _ => true
  | _ => false

/-- Field capability `isObject`: `typeof this.value === 'object'` —
true for plain objects, arrays, dates and `null`. -/
def isObjectTypeof : JSValue → Bool
  | .null => true
  | .arr _ => true
  | .obj _ => true
  | .dateObj => true
  | _ => false

/-- Field capability `isArray`: `Array.isArray(this.value)`. -/
def isArray : JSValue → Bool
  | .arr _ => true
  | _ => false

/-- Field capability `isNull`: `this.value === null`. -/
def isNull : JSValue → Bool
  | .null => true
  | _ => false

/-- Field capability `isUndefined`: `typeof this.value === 'undefined'`. -/
def isUndefined : JSValue → Bool
  | .undefined => true
  | _ => false

/-- Strict equality against the empty-string literal (`value === ''`). -/
def isEmptyStr : JSValue → Bool
  | .str s => s == ""
  | _ => false

/-- `value instanceof Date` (given `typeof value === 'object'`). -/
def isDateInstance : JSValue → Bool
  | .dateObj => true
  | _ => false

/-- JS truthiness (`Boolean(value)`): `undefined`, `null`, `false`, `0` and
`''` are falsy; every object, array and date is truthy. JS `NaN` has no
counterpart in the rational model. -/
def truthy : JSValue → Bool
  | .undefined => false
  | .null => false
  | .bool b => b
  | .num q => !(q == 0)
  | .str s => !(s == "")
  | .arr _ => true
  | .obj _ => true
  | .dateObj => true

/-- Lodash `_.isObject`: true for objects, arrays and dates, false for `null`
and primitives. -/
def lodashIsObject : JSValue → Bool
  | .arr _ => true
  | .obj _ => true
  | .dateObj => true
  | _ => false

/-- Lodash `_.keys` restricted to the values the rules feed it (after an
`_.isObject` guard): own enumerable keys of an object, stringified indices of
an array, none for a date. -/
def jsKeys : JSValue → List String
  | .obj fields => fields.map Prod.fst
  | .arr elems => (List.range elems.length).map (fun i => toString i)
  | _ => []

/-- String-keyed property read `value[name]`, yielding `undefined` when the
key is absent or the value is not a plain object (index reads on arrays do
not occur in the rules studied here). -/
def jsGet (value : JSValue) (key : String) : JSValue :=
  match value with
  | .obj fields => (fields.lookup key).getD .undefined
  | _ => .undefined

/-- Lodash `_.has(value, name)` for the values the rules feed it: own-property
presence on a plain object, false otherwise. -/
def jsHas (value : JSValue) (key : String) : Bool :=
  match value with
  | .obj fields => (fields.lookup key).isSome
  | _ => false

end JSValue

/-- `String.prototype.trim`: drop leading and trailing whitespace. -/
def trimChars (cs : List Char) : List Char :=
  ((cs.dropWhile Char.isWhitespace).reverse.dropWhile Char.isWhitespace).reverse

/-- `clearPhone` from the utils module: `phone.replace(/[^\d+]/gi, '').trim()`
— keep only digits and `+`, then trim. -/
def clearPhoneUtil (s : String) : String :=
  String.mk (trimChars (s.data.filter (fun c => c.isDigit || c == '+')))

/-- JS `String.prototype.toLowerCase` on the ASCII tokens the rules use. -/
def jsToLowerCase (s : String) : String :=
  String.mk (s.data.map Char.toLower)

namespace Rules

open JSValue

/-- The `clearPhone` filter rule: on a non-string value the source executes a
bare `return;`, so the filter's result is `undefined`; on a string it returns
the sanitized phone string. -/
def clearPhone (value : JSValue) : JSValue :=
  match value with
  | .str s => .str (clearPhoneUtil s)
  | _ => .undefined

/-- Result of the `type` rule: `true`, or the detail object
`{value, accept, current: typeof value}`. -/
inductive TypeRet where
  | pass
  | detail (value : JSValue) (accept : String) (current : String)

/-- The `type` rule. `ObjectId.isValid` is an external collaborator, passed in
abstractly as `isValidObjectId`. An `undefined` value passes immediately;
otherwise the accepted type name selects the check, falling back to a
`typeof` comparison. -/
def type (isValidObjectId : JSValue → Bool) (accept : String) (value : JSValue) : TypeRet :=
  match value with
  | .undefined => .pass
  | v =>
    let result : Bool :=
      if accept = "object" then v.isObjectTypeof || v.isNull
      else if accept = "array" then v.isArray
      else if accept = "string" then v.isString || v.isNull
      else if accept = "objectId" then v.isNull || isValidObjectId v
      else if accept = "date" then v.isEmptyStr || v.isNull || (v.isObjectTypeof && v.isDateInstance)
      else v.typeofStr == accept
    if result then .pass else .detail v accept v.typeofStr

/-- The `toBoolean` filter rule: on a string, switch on its lowercase form —
`yes`/`true`/`y`/`1` become `true`, `no`/`false`/`n`/`0` become `false`, any
other string falls through the switch and the original value is returned.
Non-string values are returned unchanged. -/
def toBoolean (value : JSValue) : JSValue :=
  match value with
  | .str s =>
    let l := jsToLowerCase s
    if l = "yes" ∨ l = "true" ∨ l = "y" ∨ l = "1" then .bool true
    else if l = "no" ∨ l = "false" ∨ l = "n" ∨ l = "0" then .bool false
    else .str s
  | v => v

/-- The `bounds` filter rule: `if (value < accept[0]) value = accept[0]; else
if (value >= accept[1]) value = accept[1];`. -/
def bounds (accept : ℚ × ℚ) (value : ℚ) : ℚ :=
  if value < accept.1 then accept.1
  else if value ≥ accept.2 then accept.2
  else value

/-- The `langMap` validator: abstain (return `true`) when the value is not a
lodash object; otherwise pass when SOME key lies in the allowed languages
plus the `default` sentinel (`_.keys(value).some(...)` in the source). -/
def langMap (allowedLangs : List String) (value : JSValue) : Bool :=
  if !value.lodashIsObject then true
  else value.jsKeys.any (fun lang => (allowedLangs ++ ["default"]).contains lang)

/-- The `langMapRequired` validator: abstain on non-objects; otherwise
`_.keys(value).reduce((result, key) => result && Boolean(value[key]))` — a
seedless `Array.prototype.reduce`, which throws a `TypeError` on an empty key
list and otherwise starts the accumulator at the FIRST KEY STRING (so the
first key's value is never tested). JS `&&` keeps a falsy accumulator
unchanged and otherwise takes `Boolean(value[key])`. `allowedLangs` is unused
in the source. -/
def langMapRequired (allowedLangs : List String) (value : JSValue) : Except String JSValue :=
  if !value.lodashIsObject then .ok (.bool true)
  else
    match value.jsKeys with
    | [] => .error "Reduce of empty array with no initial value"
    | k :: ks =>
      .ok (ks.foldl
        (fun result key => if result.truthy then .bool ((value.jsGet key).truthy) else result)
        (.str k))

end Rules

/-- Modelled from the spec: a Report is the pharmacy engine's result for one
Field — the final value plus the ordered issues (the engine itself is an
external dependency, not under `src/`). The issue type is left abstract: the
rules under study only ask whether the list is empty. -/
structure Report (ι : Type) where
  value : JSValue
  issues : List ι

/-- Modelled from the spec: `report.hasIssues()` — an issue-free Report
signals success. -/
def Report.hasIssues {ι : Type} (r : Report ι) : Bool :=
  !r.issues.isEmpty

/-- Modelled from the spec: the §4.2 rule outcome contract for boolean
outcomes — `true` means no issue, `false` means exactly one Issue recorded
against the rule itself. Only the issue's rule name matters here. -/
structure EngineIssue where
  rule : String

/-- Modelled from the spec: issues produced by the engine from a boolean
rule outcome. -/
def boolOutcomeIssues (rule : String) (outcome : Bool) : List EngineIssue :=
  if outcome then [] else [⟨rule⟩]

namespace Rules

/-- The `oneOf` rule's sequential loop, abstracted over the Reports the
child validations of the alternatives would produce, in declaration order:
no alternatives left means failure (`return false`); a clean Report means
immediate success; otherwise try the next alternative. -/
def oneOf {ι : Type} : List (Report ι) → Bool
  | [] => false
  | r :: rest => if !r.hasIssues then true else oneOf rest

/-- The Issue pushed by the `required` rule for a missing property:
`{path: name, accept: true, current: false, value: undefined}`. -/
structure ReqIssue where
  path : String
  accept : Bool
  current : Bool
  value : JSValue

/-- Return type of the `required` rule: a bare boolean or a list of missed
issues. -/
inductive ReqRet where
  | bool (b : Bool)
  | issues (missed : List ReqIssue)

/-- The `required` rule. The source first returns `true` when
`!accept || field.isNull()`; an array parameter is always truthy in JS, so
for a list of names only the `isNull` test matters. A non-object value fails
outright; otherwise each listed name whose property fails the
`_.has(value, name) && value[name] !== '' && value[name] !== null` test is
pushed onto the missed list, which is the rule's outcome. -/
def required (accept : List String) (value : JSValue) : ReqRet :=
  if value.isNull then .bool true
  else if !value.isObjectTypeof then .bool false
  else .issues (accept.filterMap (fun name =>
    if value.jsHas name && !(value.jsGet name).isEmptyStr && !(value.jsGet name).isNull
    then none
    else some ⟨name, true, false, JSValue.undefined⟩))

/-- Modelled from the spec: the §4.2 rule outcome contract applied to
`required`'s return shapes — a boolean outcome passes iff it is `true`, a
sequence of issues passes iff the sequence is empty. -/
def passRet : ReqRet → Bool
  | .bool b => b
  | .issues l => l.isEmpty

end Rules

/-- Helper: `oneOf` on a cons checks the head Report's issues first. -/
lemma oneOf_cons {ι : Type} (r : Report ι) (rest : List (Report ι)) :
    Rules.oneOf (r :: rest) = if r.issues.isEmpty then true else Rules.oneOf rest := by
  simp [Rules.oneOf, Report.hasIssues]

/-- Helper: `oneOf` succeeds exactly when some alternative's Report is
issue-free. -/
lemma oneOf_eq_true_iff {ι : Type} (reports : List (Report ι)) :
    Rules.oneOf reports = true ↔ ∃ r ∈ reports, r.issues = [] := by
  induction reports with
  | nil => simp [Rules.oneOf]
  | cons r rest ih =>
    rw [oneOf_cons]
    cases h : r.issues with
    | nil =>
      rw [List.isEmpty_nil, if_pos rfl]
      exact iff_of_true rfl ⟨r, List.mem_cons_self r rest, h⟩
    | cons i is =>
      rw [List.isEmpty_cons, if_neg (by simp), ih]
      constructor
      · rintro ⟨x, hx, he⟩
        exact ⟨x, List.mem_cons_of_mem r hx, he⟩
      · rintro ⟨x, hx, he⟩
        rcases List.mem_cons.mp hx with rfl | hx
        · rw [h] at he
          exact absurd he (List.cons_ne_nil i is)
        · exact ⟨x, hx, he⟩

/-- The part of a property's recipe literal that the `properties` rule
inspects when resolving a child value: whether a `default` entry is declared
(and the value it produces — a zero-argument producer is collapsed to the
value it returns) and whether an `acceptEmpty` marker is declared. -/
structure PropRecipe where
  default : Option JSValue
  acceptEmpty : Bool

namespace Rules

/-- Child-value resolution of the `properties` rule for one declared name:
when the key is present the actual value is used; otherwise the source first
tests `value[name] === '' && 'acceptEmpty' in accept[name]` (with an absent
key `value[name]` is `undefined`, never `''`), then falls back to a declared
default; with no value and no default the property is skipped (`return
null` — no child Field). -/
def propertyChildValue (r : PropRecipe) (value : JSValue) (name : String) : Option JSValue :=
  if !value.jsHas name then
    if (value.jsGet name).isEmptyStr && r.acceptEmpty then some (value.jsGet name)
    else
      match r.default with
      | some d => some d
      | none => none
  else some (value.jsGet name)

/-- Return type of the `properties` rule, projected onto which child Fields
are created: a bare boolean, or the named children in declaration order.
After the fan-in, `out[name] = report.value` runs exactly for the created
children, so the assembled output object's keys are exactly the child
names. -/
inductive PropRet where
  | bool (b : Bool)
  | children (named : List (String × JSValue))

/-- The `properties` rule: null abstains, a non-object fails, and otherwise
each declared property either spawns a child Field on its resolved value or
is skipped entirely. -/
def properties (accept : List (String × PropRecipe)) (value : JSValue) : PropRet :=
  if value.isNull then .bool true
  else if !value.isObjectTypeof then .bool false
  else .children (accept.filterMap (fun nr =>
    (propertyChildValue nr.2 value nr.1).map (fun v => (nr.1, v))))

end Rules

/-- `String.prototype.split(',')`: cut a character list at every comma. -/
def splitOnCommaAux : List Char → List Char → List (List Char)
  | [], acc => [acc.reverse]
  | c :: rest, acc =>
    if c = ',' then acc.reverse :: splitOnCommaAux rest []
    else splitOnCommaAux rest (c :: acc)

/-- `value.split(',')` on the underlying characters. -/
def splitOnComma (cs : List Char) : List (List Char) :=
  splitOnCommaAux cs []

/-- Decimal digits to a natural number. -/
def digitsToNat (ds : List Char) : Nat :=
  ds.foldl (fun n c => 10 * n + (c.toNat - Char.toNat '0')) 0

/-- An optional leading sign; `true` means negative. -/
def parseSign : List Char → Bool × List Char
  | '-' :: rest => (true, rest)
  | '+' :: rest => (false, rest)
  | cs => (false, cs)

/-- An optional exponent suffix `e`/`E` with optional sign; contributes 0
when absent or without digits (JS keeps the mantissa parsed so far). -/
def parseExponent (cs : List Char) : Int :=
  match cs with
  | c :: rest =>
    if c = 'e' ∨ c = 'E' then
      let sr := parseSign rest
      let ds := sr.2.takeWhile Char.isDigit
      if ds.isEmpty then 0
      else if sr.1 then -(digitsToNat ds : Int) else (digitsToNat ds : Int)
    else 0
  | [] => 0

/-- Model of the JS `parseFloat` builtin on the tokens the validator feeds
it: skip leading whitespace, take an optional sign, integer digits `i`, an
optional `.`-separated fraction `f` and an optional exponent `e`, ignoring
trailing garbage; `none` models `NaN` (no digit found at all). The parsed
number `±(i.f) × 10^e` is produced as an exact rational, assembled directly
as numerator over denominator (JS float rounding, the `Infinity` literal
and hexadecimal forms are not modelled). -/
def parseFloat (cs : List Char) : Option ℚ :=
  let cs1 := cs.dropWhile Char.isWhitespace
  let sr := parseSign cs1
  let intDs := sr.2.takeWhile Char.isDigit
  let rest1 := sr.2.drop intDs.length
  let fr : List Char × List Char :=
    match rest1 with
    | '.' :: r => (r.takeWhile Char.isDigit, r.drop (r.takeWhile Char.isDigit).length)
    | _ => ([], rest1)
  if intDs.isEmpty && fr.1.isEmpty then none
  else
    let e := parseExponent fr.2
    let numAbs : Int := (digitsToNat intDs * 10 ^ fr.1.length + digitsToNat fr.1) * 10 ^ e.toNat
    let den : Nat := 10 ^ fr.1.length * 10 ^ (-e).toNat
    some (mkRat (if sr.1 then -numAbs else numAbs) den)

namespace Rules

/-- `const coords = value.split(',').map(parseFloat).filter(n =>
!Number.isNaN(n))` — mapping then dropping `NaN` results is `filterMap`. -/
def coordsOf (s : String) : List ℚ :=
  (splitOnComma s.data).filterMap parseFloat

/-- The `isCoordsString` validator: exactly two surviving numbers, the
second (latitude) within `[-90, 90]` and the first (longitude) within
`[-180, 180]`. The index reads `coords[0]`/`coords[1]` are guarded by the
length test in the source's short-circuit conjunction, so a default of 0
under `getD` is never observable. -/
def isCoordsString (s : String) : Bool :=
  decide ((coordsOf s).length = 2)
    && decide ((coordsOf s).getD 1 0 ≤ 90)
    && decide (-90 ≤ (coordsOf s).getD 1 0)
    && decide ((coordsOf s).getD 0 0 ≤ 180)
    && decide (-180 ≤ (coordsOf s).getD 0 0)

end Rules

/-- Helper: a missing key reads as `undefined`. -/
lemma jsGet_of_not_has (fields : List (String × JSValue)) (n : String)
    (h : (JSValue.obj fields).jsHas n = false) :
    (JSValue.obj fields).jsGet n = JSValue.undefined := by
  simp only [JSValue.jsHas, JSValue.jsGet] at h ⊢
  cases hl : fields.lookup n
  · simp
  · rw [hl] at h
    simp at h

/-- Helper: a child Field is created for a property exactly when the key is
supplied, a default is declared, or the (dead in the source) acceptEmpty
branch would fire. -/
lemma propertyChildValue_isSome_iff (r : PropRecipe) (fields : List (String × JSValue))
    (n : String) :
    (Rules.propertyChildValue r (JSValue.obj fields) n).isSome = true ↔
      ((JSValue.obj fields).jsHas n = true ∨ r.default.isSome = true
        ∨ (r.acceptEmpty = true ∧ ((JSValue.obj fields).jsGet n).isEmptyStr = true)) := by
  unfold Rules.propertyChildValue
  cases hb : (JSValue.obj fields).jsHas n
  · have hg := jsGet_of_not_has fields n hb
    rw [hg]
    cases hd : r.default <;> simp [JSValue.isEmptyStr, hd]
  · simp

/-- Helper: on an object value, `required` reduces to its missed-issue list
(the null and non-object guards are passed definitionally). -/
lemma required_obj_eq (names : List String) (fields : List (String × JSValue)) :
    Rules.required names (JSValue.obj fields) = Rules.ReqRet.issues
      (names.filterMap (fun name =>
        if (JSValue.obj fields).jsHas name
            && !((JSValue.obj fields).jsGet name).isEmptyStr
            && !((JSValue.obj fields).jsGet name).isNull
        then none
        else some ⟨name, true, false, JSValue.undefined⟩)) := rfl

/-- Helper: De Morgan form of the `required` missed test, pointwise. -/
lemma missed_entry_flip (a b c : Bool) (i : Rules.ReqIssue) :
    (if a && !b && !c then (none : Option Rules.ReqIssue) else some i)
      = (if !a || b || c then some i else none) := by
  cases a <;> cases b <;> cases c <;> rfl

/-- Helper: a `required` entry produces no issue exactly when the property is
present, non-empty and non-null. -/
lemma missed_entry_none_iff (a b c : Bool) (i : Rules.ReqIssue) :
    ((if a && !b && !c then (none : Option Rules.ReqIssue) else some i) = none)
      ↔ (a = true ∧ b = false ∧ c = false) := by
  cases a <;> cases b <;> cases c <;> simp

/-! ## Claims -/

/-- Claim C1. The spec demands that no filter leave the field's value
undefined — "filters must always return a value, even the original on
no-op" — and the claim instantiates this at `clearPhone` on a non-string
value. The source's `clearPhone` filter instead executes a bare `return;`
when `typeof value !== 'string'`, so the filter's result is `undefined`:
evaluated at the number 42, the filter yields `undefined`, contradicting the
claim. The code is the slip (every sibling filter returns a value; the spec
states the invariant explicitly). -/
theorem claim_C1_clearPhone_undefined :
    Rules.clearPhone (JSValue.num 42) = JSValue.undefined := rfl

/-- Claim C9. For every accepted type parameter, the `type` validator passes
when the current value is `undefined`: the rule returns `true` before ever
inspecting `accept`, for any external ObjectId validity predicate. -/
theorem claim_C9_type_undefined_passes :
    ∀ (isValidObjectId : JSValue → Bool) (accept : String),
      Rules.type isValidObjectId accept JSValue.undefined = Rules.TypeRet.pass :=
  fun _ _ => rfl

/-- Claim C9 witness: the theorem applied at a concrete accepted type. -/
theorem claim_C9_witness :
    Rules.type (fun _ => false) "object" JSValue.undefined = Rules.TypeRet.pass :=
  claim_C9_type_undefined_passes (fun _ => false) "object"

/-- Claim C8. `toBoolean` maps the tokens `yes`/`true`/`y`/`1` to `true` and
`no`/`false`/`n`/`0` to `false` case-insensitively, passes every unrecognized
string through unchanged, and is the identity on already-boolean input (so it
is idempotent once a boolean has been produced). -/
theorem claim_C8_toBoolean :
    (∀ s : String, jsToLowerCase s ∈ (["yes", "true", "y", "1"] : List String) →
      Rules.toBoolean (JSValue.str s) = JSValue.bool true)
    ∧ (∀ s : String, jsToLowerCase s ∈ (["no", "false", "n", "0"] : List String) →
      Rules.toBoolean (JSValue.str s) = JSValue.bool false)
    ∧ (∀ s : String,
        jsToLowerCase s ∉ (["yes", "true", "y", "1", "no", "false", "n", "0"] : List String) →
      Rules.toBoolean (JSValue.str s) = JSValue.str s)
    ∧ (∀ b : Bool, Rules.toBoolean (JSValue.bool b) = JSValue.bool b) := by
  refine ⟨?_, ?_, ?_, fun b => rfl⟩
  · intro s h
    simp only [List.mem_cons, List.not_mem_nil, or_false] at h
    rcases h with h | h | h | h <;> simp [Rules.toBoolean, h]
  · intro s h
    simp only [List.mem_cons, List.not_mem_nil, or_false] at h
    rcases h with h | h | h | h <;> simp [Rules.toBoolean, h]
  · intro s h
    simp only [List.mem_cons, List.not_mem_nil, or_false, not_or] at h
    obtain ⟨h1, h2, h3, h4, h5, h6, h7, h8⟩ := h
    simp [Rules.toBoolean, h1, h2, h3, h4, h5, h6, h7, h8]

/-- Claim C8 witness: the theorem applied at the tokens `YES`, `No`, the
unrecognized string `maybe`, and a boolean. -/
theorem claim_C8_witness :
    Rules.toBoolean (JSValue.str "YES") = JSValue.bool true
    ∧ Rules.toBoolean (JSValue.str "No") = JSValue.bool false
    ∧ Rules.toBoolean (JSValue.str "maybe") = JSValue.str "maybe"
    ∧ Rules.toBoolean (JSValue.bool true) = JSValue.bool true :=
  ⟨claim_C8_toBoolean.1 "YES" (by decide),
   claim_C8_toBoolean.2.1 "No" (by decide),
   claim_C8_toBoolean.2.2.1 "maybe" (by decide),
   claim_C8_toBoolean.2.2.2 true⟩

/-- Claim C6 counterexample. The claim says `bounds` clamps into the
half-open interval `[min, max)`, i.e. the result is strictly below `max`; but
on input 15 with bounds `[0, 10]` the filter returns 10 itself (the source
sets `value = accept[1]` when `value >= accept[1]`), and 10 < 10 fails. -/
theorem claim_C6_counterexample :
    Rules.bounds (0, 10) 15 = 10 ∧ ¬ (Rules.bounds (0, 10) 15 < 10) := by
  constructor <;> norm_num [Rules.bounds]

/-- Claim C6 amended: for `min ≤ max`, the `bounds` filter clamps into the
CLOSED interval `[min, max]` — the result is at least `min` and at most
`max` (it equals `max` exactly on inputs that reach the upper branch). -/
theorem claim_C6_amended :
    ∀ (lo hi v : ℚ), lo ≤ hi →
      lo ≤ Rules.bounds (lo, hi) v ∧ Rules.bounds (lo, hi) v ≤ hi := by
  intro lo hi v h
  unfold Rules.bounds
  split_ifs with h1 h2
  · exact ⟨le_refl lo, h⟩
  · exact ⟨h, le_refl hi⟩
  · exact ⟨le_of_not_lt h1, le_of_not_le (fun hle => h2 hle)⟩

/-- Claim C6 witness: the amended theorem applied at bounds `[0, 10]` and
value 15. -/
theorem claim_C6_witness :
    (0 : ℚ) ≤ 10 ∧ 0 ≤ Rules.bounds (0, 10) 15 ∧ Rules.bounds (0, 10) 15 ≤ 10 :=
  ⟨by norm_num, (claim_C6_amended 0 10 15 (by norm_num)).1,
   (claim_C6_amended 0 10 15 (by norm_num)).2⟩

/-- Claim C5 counterexample. The claim says `langMap` passes ONLY when every
key of the object lies in the allowed set plus `default`; but the source uses
`_.keys(value).some(...)`, so `{en: 1, zz: 2}` passes against allowed
languages `["en"]` even though the key `zz` is not allowed. -/
theorem claim_C5_counterexample :
    Rules.langMap ["en"] (JSValue.obj [("en", JSValue.num 1), ("zz", JSValue.num 2)]) = true
    ∧ ¬ (∀ k ∈ JSValue.jsKeys (JSValue.obj [("en", JSValue.num 1), ("zz", JSValue.num 2)]),
          k ∈ (["en"] : List String) ++ ["default"]) := by
  constructor
  · rfl
  · intro h
    have := h "zz" (by simp [JSValue.jsKeys])
    simp at this

/-- Claim C5 amended: `langMap` abstains (returns satisfied) when the value
is not a lodash object, and on objects it passes if and only if AT LEAST ONE
key lies within the allowed-language set plus the `default` sentinel. -/
theorem claim_C5_amended :
    ∀ (allowedLangs : List String) (value : JSValue),
      (value.lodashIsObject = false → Rules.langMap allowedLangs value = true)
      ∧ (value.lodashIsObject = true →
          (Rules.langMap allowedLangs value = true ↔
            ∃ k ∈ value.jsKeys, k ∈ allowedLangs ++ ["default"])) := by
  intro allowed v
  constructor
  · intro h
    simp [Rules.langMap, h]
  · intro h
    simp [Rules.langMap, h, List.any_eq_true]

/-- Claim C5 witness: the amended theorem applied to a non-object value and
to a one-key object whose key is allowed. -/
theorem claim_C5_witness :
    Rules.langMap ["en"] (JSValue.num 3) = true
    ∧ Rules.langMap ["en"] (JSValue.obj [("en", JSValue.num 1)]) = true :=
  ⟨(claim_C5_amended ["en"] (JSValue.num 3)).1 rfl,
   ((claim_C5_amended ["en"] (JSValue.obj [("en", JSValue.num 1)])).2 rfl).mpr
     ⟨"en", by simp [JSValue.jsKeys], by simp⟩⟩

/-- Claim C7 counterexample. The claim says any wrong number of
comma-separated tokens fails; but the source filters out the `NaN` results
of `parseFloat` BEFORE counting, so `"10,foo,20"` — three tokens, one
unparsable — passes: the surviving numbers are `[10, 20]`, within bounds. -/
theorem claim_C7_counterexample :
    Rules.isCoordsString "10,foo,20" = true
    ∧ (splitOnComma ("10,foo,20".data)).length ≠ 2
    ∧ parseFloat ("foo".data) = none := by
  refine ⟨by decide, by decide, rfl⟩

/-- Claim C7 amended: `isCoordsString` passes iff, after splitting on commas,
parsing each token as a float and DISCARDING the unparsable (`NaN`) tokens,
exactly two numbers survive, with the first (longitude) in `[-180, 180]` and
the second (latitude) in `[-90, 90]`. -/
theorem claim_C7_amended :
    ∀ s : String, Rules.isCoordsString s = true ↔
      ∃ lng lat : ℚ, Rules.coordsOf s = [lng, lat]
        ∧ -180 ≤ lng ∧ lng ≤ 180 ∧ -90 ≤ lat ∧ lat ≤ 90 := by
  intro s
  unfold Rules.isCoordsString
  simp only [Bool.and_eq_true, decide_eq_true_eq]
  constructor
  · rintro ⟨⟨⟨⟨h1, h2⟩, h3⟩, h4⟩, h5⟩
    obtain ⟨a, b, hab⟩ := List.length_eq_two.mp h1
    rw [hab] at h2 h3 h4 h5
    exact ⟨a, b, hab, by simpa using h5, by simpa using h4, by simpa using h3,
      by simpa using h2⟩
  · rintro ⟨lng, lat, hab, h1, h2, h3, h4⟩
    rw [hab]
    exact ⟨⟨⟨⟨rfl, by simpa using h4⟩, by simpa using h3⟩, by simpa using h2⟩,
      by simpa using h1⟩

/-- Claim C7 witness: the amended theorem applied at the well-formed
coordinate string `"10,20"`. -/
theorem claim_C7_witness :
    Rules.isCoordsString "10,20" = true :=
  (claim_C7_amended "10,20").mpr
    ⟨10, 20, by decide, by norm_num, by norm_num, by norm_num, by norm_num⟩

/-- Claim C10. `langMapRequired` reduces over the key list with no seed: on
an object with zero keys the native `Array.prototype.reduce` throws a
`TypeError` (modelled as the `Except.error` branch), and the claim is right
about that and about abstention on non-objects. But for objects with at
least one key the claim says the rule returns whether EVERY key maps to a
truthy value — the seedless reduce instead starts from the first key string
and never tests the first key's value: on `{a: 0, b: 1}` the code yields
`true` although key `a` maps to the falsy `0`. The callback
`(result, key) => result && Boolean(value[key])` is plainly an every-fold
missing its `true` seed, so the code is the slip. -/
theorem claim_C10_seedless_reduce :
    Rules.langMapRequired ["en"] (JSValue.obj [("a", JSValue.num 0), ("b", JSValue.num 1)])
      = Except.ok (JSValue.bool true)
    ∧ JSValue.truthy
        (JSValue.jsGet (JSValue.obj [("a", JSValue.num 0), ("b", JSValue.num 1)]) "a") = false
    ∧ Rules.langMapRequired ["en"] (JSValue.obj [])
        = Except.error "Reduce of empty array with no initial value"
    ∧ Rules.langMapRequired ["en"] (JSValue.str "x") = Except.ok (JSValue.bool true) :=
  ⟨rfl, rfl, rfl, rfl⟩

/-- Claim C2. `oneOf` tries the alternatives' Reports sequentially in
declared order: it passes iff at least one alternative's Report has zero
issues, a clean head Report wins immediately (the remaining alternatives are
never consulted), and when every alternative fails the rule's boolean
outcome is `false`, which the engine turns into exactly one failing Issue
for the `oneOf` rule itself — not the union of the alternatives' issues. -/
theorem claim_C2_oneOf :
    ∀ {ι : Type} (reports : List (Report ι)),
      (Rules.oneOf reports = true ↔ ∃ r ∈ reports, r.issues = [])
      ∧ (∀ (r : Report ι) (rest : List (Report ι)), r.issues = [] →
          Rules.oneOf (r :: rest) = true)
      ∧ ((∀ r ∈ reports, r.issues ≠ []) →
          Rules.oneOf reports = false
          ∧ boolOutcomeIssues "oneOf" (Rules.oneOf reports) = [⟨"oneOf"⟩]) := by
  intro ι reports
  refine ⟨oneOf_eq_true_iff reports, ?_, ?_⟩
  · intro r rest h
    rw [oneOf_cons]
    simp [h]
  · intro hall
    have hne : ¬ ∃ r ∈ reports, r.issues = [] := by
      rintro ⟨r, hr, he⟩
      exact hall r hr he
    have hfalse : Rules.oneOf reports = false :=
      Bool.eq_false_iff.mpr (fun hc => hne ((oneOf_eq_true_iff reports).mp hc))
    exact ⟨hfalse, by rw [hfalse]; rfl⟩

/-- Claim C2 witness: the theorem applied to concrete Report lists — a
failing alternative followed by a clean one passes; two failing alternatives
fail with exactly the single `oneOf` Issue. -/
theorem claim_C2_witness :
    Rules.oneOf [(⟨JSValue.null, ["e1"]⟩ : Report String), ⟨JSValue.null, []⟩] = true
    ∧ Rules.oneOf [(⟨JSValue.null, ["e1"]⟩ : Report String), ⟨JSValue.null, ["e2"]⟩] = false
    ∧ boolOutcomeIssues "oneOf"
        (Rules.oneOf [(⟨JSValue.null, ["e1"]⟩ : Report String), ⟨JSValue.null, ["e2"]⟩])
        = [⟨"oneOf"⟩] :=
  have hall : ∀ r ∈ [(⟨JSValue.null, ["e1"]⟩ : Report String), ⟨JSValue.null, ["e2"]⟩],
      r.issues ≠ [] := by
    intro r hr
    rcases List.mem_cons.mp hr with rfl | hr
    · simp
    · rcases List.mem_cons.mp hr with rfl | hr
      · simp
      · simp at hr
  ⟨(claim_C2_oneOf _).1.mpr ⟨⟨JSValue.null, []⟩, by simp, rfl⟩,
   ((claim_C2_oneOf _).2.2 hall).1,
   ((claim_C2_oneOf _).2.2 hall).2⟩

/-- Claim C4. On a non-null object, `required` emits one Issue
`{path: name, accept: true, current: false}` exactly for each listed name
whose property is absent, empty-string, or null; it passes exactly when no
listed name is missing; on a null value it abstains as satisfied; and
`required: ["a"]` on `{}` yields exactly one issue with path `"a"`. -/
theorem claim_C4_required :
    (∀ (names : List String) (fields : List (String × JSValue)),
      Rules.required names (JSValue.obj fields) = Rules.ReqRet.issues
        (names.filterMap (fun n =>
          if !(JSValue.obj fields).jsHas n
              || ((JSValue.obj fields).jsGet n).isEmptyStr
              || ((JSValue.obj fields).jsGet n).isNull
          then some ⟨n, true, false, JSValue.undefined⟩ else none)))
    ∧ (∀ (names : List String) (fields : List (String × JSValue)),
        Rules.passRet (Rules.required names (JSValue.obj fields)) = true ↔
          ∀ n ∈ names, (JSValue.obj fields).jsHas n = true
            ∧ ((JSValue.obj fields).jsGet n).isEmptyStr = false
            ∧ ((JSValue.obj fields).jsGet n).isNull = false)
    ∧ (∀ names : List String, Rules.required names JSValue.null = Rules.ReqRet.bool true)
    ∧ Rules.required ["a"] (JSValue.obj []) =
        Rules.ReqRet.issues [⟨"a", true, false, JSValue.undefined⟩] := by
  refine ⟨?_, ?_, fun names => rfl, rfl⟩
  · intro names fields
    rw [required_obj_eq]
    congr 1
    exact List.filterMap_congr (fun n _ => missed_entry_flip _ _ _ _)
  · intro names fields
    rw [required_obj_eq]
    rw [show ∀ l, Rules.passRet (Rules.ReqRet.issues l) = l.isEmpty from fun _ => rfl]
    rw [List.isEmpty_iff, List.filterMap_eq_nil_iff]
    constructor
    · intro h n hn
      exact (missed_entry_none_iff _ _ _ _).mp (h n hn)
    · intro h n hn
      exact (missed_entry_none_iff _ _ _ _).mpr (h n hn)

/-- Claim C3. On an object value, the `properties` rule creates a child
Field (and hence a key in the assembled output object) for exactly those
declared property names that had a supplied value, a configured default, or
(when marked acceptEmpty) an empty-string value — and a property with no
value and no default is skipped entirely: no child, no key. (With an absent
key the property read is `undefined`, so the acceptEmpty disjunct only ever
holds for supplied values; the characterization is stated as the claim
words it.) -/
theorem claim_C3_properties :
    ∀ (accept : List (String × PropRecipe)) (fields : List (String × JSValue)) (n : String),
      Rules.properties accept (JSValue.obj fields) = Rules.PropRet.children
        (accept.filterMap (fun nr =>
          (Rules.propertyChildValue nr.2 (JSValue.obj fields) nr.1).map (fun v => (nr.1, v))))
      ∧ ((∃ v, (n, v) ∈ accept.filterMap (fun nr =>
            (Rules.propertyChildValue nr.2 (JSValue.obj fields) nr.1).map (fun v => (nr.1, v))))
          ↔ ∃ r : PropRecipe, (n, r) ∈ accept ∧
              ((JSValue.obj fields).jsHas n = true ∨ r.default.isSome = true
                ∨ (r.acceptEmpty = true ∧ ((JSValue.obj fields).jsGet n).isEmptyStr = true))) := by
  intro accept fields n
  refine ⟨rfl, ?_⟩
  constructor
  · rintro ⟨v, hv⟩
    obtain ⟨nr, hnr, hf⟩ := List.mem_filterMap.mp hv
    obtain ⟨a, ha, hav⟩ := Option.map_eq_some'.mp hf
    have hn : nr.1 = n := congrArg Prod.fst hav
    refine ⟨nr.2, ?_, ?_⟩
    · rw [← hn]
      exact hnr
    · rw [← hn]
      exact (propertyChildValue_isSome_iff nr.2 fields nr.1).mp
        (by rw [ha]; rfl)
  · rintro ⟨r, hmem, hcond⟩
    obtain ⟨v, hv⟩ := Option.isSome_iff_exists.mp
      ((propertyChildValue_isSome_iff r fields n).mpr hcond)
    exact ⟨v, List.mem_filterMap.mpr ⟨(n, r), hmem, by rw [hv]; rfl⟩⟩

/-- Claim C3 witness: the theorem applied at a concrete recipe set — a
supplied property and a defaulted property are both present in the output;
the skipped shape is covered by the characterization's only-if direction. -/
theorem claim_C3_witness :
    Rules.properties
        [("a", (⟨none, false⟩ : PropRecipe)),
         ("b", ⟨some (JSValue.num 5), false⟩)]
        (JSValue.obj [("a", JSValue.str "x")])
      = Rules.PropRet.children [("a", JSValue.str "x"), ("b", JSValue.num 5)]
    ∧ (∃ r : PropRecipe,
        ("b", r) ∈ [("a", (⟨none, false⟩ : PropRecipe)),
                    ("b", ⟨some (JSValue.num 5), false⟩)] ∧
          ((JSValue.obj [("a", JSValue.str "x")]).jsHas "b" = true
            ∨ r.default.isSome = true
            ∨ (r.acceptEmpty = true
                ∧ ((JSValue.obj [("a", JSValue.str "x")]).jsGet "b").isEmptyStr = true))) :=
  ⟨(claim_C3_properties _ _ "a").1.trans rfl,
   (claim_C3_properties _ _ "b").2.mp
     ⟨JSValue.num 5,
      List.mem_filterMap.mpr ⟨("b", ⟨some (JSValue.num 5), false⟩), by simp, rfl⟩⟩⟩

/-- Claim C4 witness: the theorem applied at concrete inputs — a present,
non-empty, non-null property passes; a null value abstains. -/
theorem claim_C4_witness :
    Rules.passRet (Rules.required ["a"] (JSValue.obj [("a", JSValue.num 1)])) = true
    ∧ Rules.required ["x"] JSValue.null = Rules.ReqRet.bool true :=
  ⟨(claim_C4_required.2.1 ["a"] [("a", JSValue.num 1)]).mpr (by
      intro n hn
      rcases List.mem_cons.mp hn with rfl | hn
      · exact ⟨rfl, rfl, rfl⟩
      · simp at hn),
   claim_C4_required.2.2.1 ["x"]⟩
